import Mathlib

/-!
Shallow embedding of the Tabular Transformation Engine of this repository
(src/react2/flask-server/data_processor.py, class DataProcessor).

Modelling conventions:
* A cell value is `Val`: a rational number (`num`), a string (`str`) or a
  missing value (`null`, modelling NaN / pandas NA).
* A pandas DataFrame is an ordered association list of named columns
  (`DataFrame`); `df[name] = series` is `DataFrame.setCol` (replace in
  place when the name exists, append otherwise, as pandas does).
* Exact rational arithmetic stands in for float arithmetic.  The two
  irrational primitives used by the code (natural log for `np.log` /
  `np.sqrt`, and the square root inside `StandardScaler`) are abstracted
  as parameters in `NumFns`; every other numeric step is computed exactly.
* Python exceptions are `Except String`.
-/

inductive Val where
  | num (q : ℚ)
  | str (s : String)
  | null
deriving DecidableEq

def Val.isNull : Val → Bool
  | .null => true
  | _ => false

/-- Python `str(...)` as used by `chunk.astype(str)` and in f-strings:
a float NaN (our `null`) prints as the string "nan". -/
def Val.toStr : Val → String
  | .num q => toString q
  | .str s => s
  | .null => "nan"

/-- pandas elementwise equality (`data == category`): NaN compares unequal
to everything, including itself. -/
def valEq : Val → Val → Bool
  | .null, _ => false
  | .num q, .num r => decide (q = r)
  | .str s, .str t => decide (s = t)
  | _, _ => false

/-- The non-null numeric entries of a column, in order (the values a
pandas reduction such as `mean`, `min`, `max`, `var` actually sees,
since NaN entries are skipped). -/
def nonNullNums (xs : List Val) : List ℚ :=
  xs.filterMap fun v => match v with | .num q => some q | _ => none

/-- Elementwise map over the numeric entries; NaN propagates (numeric
numpy/sklearn ops send NaN to NaN and never touch non-numeric cells). -/
def mapNum (f : ℚ → ℚ) (xs : List Val) : List Val :=
  xs.map fun v => match v with | .num q => .num (f q) | v => v

/-- `(chunk <= 0).any()`: NaN <= 0 is False in numpy, so nulls pass. -/
def anyNumLE0 (xs : List Val) : Bool :=
  xs.any fun v => match v with | .num q => decide (q ≤ 0) | _ => false

/-- `(chunk < 0).any()`: NaN < 0 is False in numpy, so nulls pass. -/
def anyNumLT0 (xs : List Val) : Bool :=
  xs.any fun v => match v with | .num q => decide (q < 0) | _ => false

/-- The two irrational elementwise primitives of the source, abstracted:
`log` models `np.log`, `sqrt` models both `np.sqrt` and the square root
taken of the variance inside `StandardScaler`. -/
structure NumFns where
  log : ℚ → ℚ
  sqrt : ℚ → ℚ

def meanQ (l : List ℚ) : ℚ := l.sum / l.length

/-- Population variance (ddof = 0), as `StandardScaler` computes it. -/
def varQ (l : List ℚ) : ℚ := (l.map (fun x => (x - meanQ l) ^ 2)).sum / l.length

/-- The scale used by `StandardScaler`: sqrt of the variance, with a zero
scale replaced by 1 (sklearn `_handle_zeros_in_scale`; sqrt v = 0 iff
v = 0 for the real square root). -/
def stdScale (fns : NumFns) (l : List ℚ) : ℚ :=
  if varQ l = 0 then 1 else fns.sqrt (varQ l)

def minQ : List ℚ → ℚ
  | [] => 0
  | x :: xs => xs.foldl min x

def maxQ : List ℚ → ℚ
  | [] => 0
  | x :: xs => xs.foldl max x

/-- The denominator used by `MinMaxScaler`: data range max - min, with a
zero range replaced by 1 (sklearn `_handle_zeros_in_scale`). -/
def rangeScale (l : List ℚ) : ℚ :=
  if maxQ l - minQ l = 0 then 1 else maxQ l - minQ l

/-- `chunk.astype(str)`. -/
def astypeStr (xs : List Val) : List String := xs.map Val.toStr

/-- The classes a freshly fit `LabelEncoder` holds for this chunk:
`np.unique` of the stringified values, i.e. the distinct strings in
ascending lexicographic order. -/
def labelClasses (xs : List Val) : List String :=
  ((astypeStr xs).dedup).insertionSort (fun a b => a ≤ b)

/-- `LabelEncoder().fit_transform(chunk.astype(str))`: each stringified
value becomes the index of its class, an integer code. -/
def labelEncodeT (xs : List Val) : List Val :=
  (astypeStr xs).map fun s => Val.num ((labelClasses xs).indexOf s : ℕ)

/-- `DataProcessor._process_chunk` (data_processor.py lines 211-235):
dispatch on the transformation name; scalers and the label encoder are
fit on the chunk they are handed. -/
def processChunk (fns : NumFns) (transformation : String) (chunk : List Val) :
    Except String (List Val) :=
  if transformation = "log" then
    if anyNumLE0 chunk then .error "Log transformation requires positive values"
    else .ok (mapNum fns.log chunk)
  else if transformation = "sqrt" then
    if anyNumLT0 chunk then .error "Square root transformation requires non-negative values"
    else .ok (mapNum fns.sqrt chunk)
  else if transformation = "standard" then
    .ok (mapNum (fun q => (q - meanQ (nonNullNums chunk)) / stdScale fns (nonNullNums chunk)) chunk)
  else if transformation = "minmax" then
    .ok (mapNum (fun q => (q - minQ (nonNullNums chunk)) / rangeScale (nonNullNums chunk)) chunk)
  else if transformation = "label_encoding" then
    .ok (labelEncodeT chunk)
  else .ok chunk

/-- Structural helper for `chunkSplit`: peel off `csize` elements at a
time until the list is exhausted.  `fuel` only bounds the recursion depth
(position 1 never fires when `fuel` starts at the list length and
`csize` is positive, since every step consumes at least one element). -/
def chunkSplitAux (csize : Nat) : Nat → List α → List (List α)
  | _, [] => []
  | 0, _ => []
  | fuel + 1, xs => xs.take csize :: chunkSplitAux csize fuel (xs.drop csize)

/-- `[data[i:i + CHUNK_SIZE] for i in range(0, len(data), CHUNK_SIZE)]`:
contiguous chunks of `csize` elements in original order (the last one
shorter when `csize` does not divide the length). -/
def chunkSplit (csize : Nat) (xs : List α) : List (List α) :=
  chunkSplitAux csize xs.length xs

/-- `list(executor.map(f, chunks))`: results in chunk order; the first
failing chunk (in chunk order) has its exception re-raised. -/
def mapExcept (f : List Val → Except String (List Val)) :
    List (List Val) → Except String (List (List Val))
  | [] => .ok []
  | c :: cs =>
    match f c with
    | .error e => .error e
    | .ok r => (mapExcept f cs).map (r :: ·)

/-- The chunked execution path of `_apply_transformation` (lines 278-288):
if the column is longer than the chunk size, split, run the chunk function
on every chunk and reassemble with `pd.concat`; otherwise run on the whole
column. -/
def runChunked (csize : Nat) (f : List Val → Except String (List Val)) (xs : List Val) :
    Except String (List Val) :=
  if xs.length > csize then (mapExcept f (chunkSplit csize xs)).map List.flatten
  else f xs

/-- `CHUNK_SIZE = 10000` (data_processor.py line 29). -/
def CHUNK_SIZE : Nat := 10000

structure DataFrame where
  cols : List (String × List Val)
deriving DecidableEq

def DataFrame.keys (df : DataFrame) : List String := df.cols.map Prod.fst

def DataFrame.hasCol (df : DataFrame) (name : String) : Bool := df.keys.contains name

/-- `df[name]` (read).  A missing name would raise KeyError in pandas; we
return `[]` and state theorems under a `hasCol` hypothesis. -/
def DataFrame.get (df : DataFrame) (name : String) : List Val :=
  ((df.cols.find? fun p => p.1 == name).map Prod.snd).getD []

/-- `df[name] = vals`: replace in place when the column exists, else
append as the last column (pandas assignment semantics). -/
def DataFrame.setCol (df : DataFrame) (name : String) (vals : List Val) : DataFrame :=
  if df.hasCol name then ⟨df.cols.map fun p => if p.1 = name then (name, vals) else p⟩
  else ⟨df.cols ++ [(name, vals)]⟩

/-- Keep-mask of a column: true at rows whose value is non-null
(`~data.isna()`). -/
def nullMask (xs : List Val) : List Bool := xs.map fun v => !v.isNull

/-- Row selection by a positional keep-mask (`df.loc[valid_indices]`
restricted to one column). -/
def filterRows (mask : List Bool) (xs : List Val) : List Val :=
  ((xs.zip mask).filter fun p => p.2).map Prod.fst

/-- `self.current_df = self.current_df.loc[valid_indices]` where
`valid_indices` are the rows with a non-null value in `column`
(lines 248-252): every column is filtered to the surviving rows. -/
def DataFrame.dropnaOn (df : DataFrame) (column : String) : DataFrame :=
  ⟨df.cols.map fun p => (p.1, filterRows (nullMask (df.get column)) p.2)⟩

/-- `pd.Series.unique`: distinct values in first-seen order. -/
def uniqueFirstAux [DecidableEq α] (seen : List α) : List α → List α
  | [] => []
  | x :: xs => if x ∈ seen then uniqueFirstAux seen xs else x :: uniqueFirstAux (x :: seen) xs

def uniqueFirst [DecidableEq α] (xs : List α) : List α := uniqueFirstAux [] xs

/-- `data.dropna().unique()`: the one-hot categories. -/
def oneHotCategories (data : List Val) : List Val :=
  uniqueFirst (data.filter fun v => !v.isNull)

/-- `f"{column}_{category}"` (string-named-column branch). -/
def oneHotName (column : String) (c : Val) : String := column ++ "_" ++ c.toStr

/-- `(data == category).astype(int)`. -/
def indicatorCol (data : List Val) (c : Val) : List Val :=
  data.map fun v => Val.num (if valEq v c then 1 else 0)

/-- `result[col_name] = ...` in a loop over the categories, starting from
an empty frame (lines 266-272); assignment semantics, so a repeated name
would overwrite. -/
def oneHotCols (column : String) (data : List Val) : List (String × List Val) :=
  ((oneHotCategories data).foldl
    (fun acc c => DataFrame.setCol acc (oneHotName column c) (indicatorCol data c))
    ⟨[]⟩).cols

/-- `created_columns` collected in the same loop (one entry per category,
appended even when the assignment overwrote). -/
def oneHotCreated (column : String) (data : List Val) : List String :=
  (oneHotCategories data).map (oneHotName column)

/-- `data.mean()`: pandas skips NaN; the mean of an all-null column is
itself NaN (`none`). -/
def seriesMean (xs : List Val) : Option ℚ :=
  if nonNullNums xs = [] then none else some (meanQ (nonNullNums xs))

def medianOf (l : List ℚ) : ℚ :=
  let s := l.insertionSort fun a b => a ≤ b
  if s.length % 2 = 1 then s.getD (s.length / 2) 0
  else (s.getD (s.length / 2 - 1) 0 + s.getD (s.length / 2) 0) / 2

/-- `data.median()`: pandas skips NaN; NaN (`none`) when all null. -/
def seriesMedian (xs : List Val) : Option ℚ :=
  if nonNullNums xs = [] then none else some (medianOf (nonNullNums xs))

/-- `data.fillna(x)`: filling with NaN (`none`) leaves the column as is. -/
def fillnaWith (x : Option ℚ) (xs : List Val) : List Val :=
  match x with
  | none => xs
  | some m => xs.map fun v => match v with | .null => .num m | v => v

/-- The result of `_apply_transformation`: a single derived series, or the
one-hot frame together with its `attrs` created-column metadata. -/
inductive TransformResult where
  | single (vals : List Val)
  | multi (frame : List (String × List Val)) (created : List String)
deriving DecidableEq

/-- `raise Exception(f"Error in transformation ...: ...")` (line 291). -/
def wrapErr (transformation : String) :
    Except String (TransformResult × DataFrame) → Except String (TransformResult × DataFrame)
  | .error e => .error ("Error in transformation " ++ transformation ++ ": " ++ e)
  | .ok r => .ok r

/-- `DataProcessor._apply_transformation` (lines 237-291), string column
name branch.  Returns the transformation result together with the
`current_df` after the call (only `dropna` reassigns it). -/
def applyTransformationAux (fns : NumFns) (df : DataFrame) (column transformation : String) :
    Except String (TransformResult × DataFrame) :=
  let data := df.get column
  wrapErr transformation
    (if transformation = "dropna" then
      .ok (.single ((df.dropnaOn column).get column), df.dropnaOn column)
    else if transformation = "fillna_mean" then
      .ok (.single (fillnaWith (seriesMean data) data), df)
    else if transformation = "fillna_median" then
      .ok (.single (fillnaWith (seriesMedian data) data), df)
    else if transformation = "one_hot_encoding" then
      .ok (.multi (oneHotCols column data) (oneHotCreated column data), df)
    else
      (runChunked CHUNK_SIZE (processChunk fns transformation) data).map
        fun vals => (.single vals, df))

/-- The engine state: `self.current_df` and `self.original_df`. -/
structure Processor where
  current_df : DataFrame
  original_df : DataFrame
deriving DecidableEq

/-- `DataProcessor.preview_transformation` (lines 293-330), data part:
computes the transformation result; `current_df` after the call is
whatever `_apply_transformation` left in place. -/
def previewTransformation (fns : NumFns) (p : Processor) (column transformation : String) :
    Except String (TransformResult × Processor) :=
  (applyTransformationAux fns p.current_df column transformation).map
    fun r => (r.1, { p with current_df := r.2 })

/-- `DataProcessor.apply_transformation` (lines 332-343, data part): run
`_apply_transformation`, then write the result into `current_df` — every
frame column for the one-hot case, else one new column under
`new_column_name`; returns the created column names. -/
def applyTransformation (fns : NumFns) (p : Processor)
    (column transformation new_column_name : String) :
    Except String (Processor × List String) :=
  (applyTransformationAux fns p.current_df column transformation).map
    fun r =>
      match r.1 with
      | .multi frame _ =>
          ({ p with current_df := frame.foldl (fun d pr => d.setCol pr.1 pr.2) r.2 },
           frame.map Prod.fst)
      | .single vals =>
          ({ p with current_df := r.2.setCol new_column_name vals }, [new_column_name])

/-! ### Helper lemmas about the DataFrame model -/

theorem DataFrame.hasCol_iff (df : DataFrame) (n : String) :
    df.hasCol n = true ↔ ∃ p ∈ df.cols, p.1 = n := by
  unfold DataFrame.hasCol DataFrame.keys
  simp [List.contains_iff_exists_mem_beq, eq_comm]

theorem DataFrame.get_setCol_self (df : DataFrame) (n : String) (v : List Val) :
    (df.setCol n v).get n = v := by
  unfold DataFrame.setCol
  split
  · rename_i h
    unfold DataFrame.get
    rw [show ((⟨df.cols.map fun p => if p.1 = n then (n, v) else p⟩ : DataFrame)).cols
        = df.cols.map fun p => if p.1 = n then (n, v) else p from rfl, List.find?_map]
    have hfun : ((fun p : String × List Val => p.1 == n) ∘
        fun p : String × List Val => if p.1 = n then (n, v) else p)
        = fun p : String × List Val => p.1 == n := by
      funext p; by_cases hp : p.1 = n <;> simp [hp]
    rw [hfun]
    obtain ⟨p0, hp0, hp0n⟩ := (DataFrame.hasCol_iff df n).mp h
    cases hfind : df.cols.find? fun p => p.1 == n with
    | none =>
        rw [List.find?_eq_none] at hfind
        exact absurd (by simpa using hp0n) (hfind p0 hp0)
    | some p1 =>
        have h1 : p1.1 = n := by simpa using List.find?_some hfind
        simp [h1]
  · unfold DataFrame.get
    rw [show ((⟨df.cols ++ [(n, v)]⟩ : DataFrame)).cols = df.cols ++ [(n, v)] from rfl,
      List.find?_append]
    rename_i h
    have hnone : (df.cols.find? fun p => p.1 == n) = none := by
      rw [List.find?_eq_none]
      intro p hp hb
      exact h ((DataFrame.hasCol_iff df n).mpr ⟨p, hp, by simpa using hb⟩)
    simp [hnone]

theorem DataFrame.get_setCol_ne (df : DataFrame) (n m : String) (v : List Val)
    (hm : m ≠ n) : (df.setCol n v).get m = df.get m := by
  unfold DataFrame.setCol
  split
  · unfold DataFrame.get
    rw [show ((⟨df.cols.map fun p => if p.1 = n then (n, v) else p⟩ : DataFrame)).cols
        = df.cols.map fun p => if p.1 = n then (n, v) else p from rfl, List.find?_map]
    have hfun : ((fun p : String × List Val => p.1 == m) ∘
        fun p : String × List Val => if p.1 = n then (n, v) else p)
        = fun p : String × List Val => p.1 == m := by
      funext p; by_cases hp : p.1 = n <;> simp [hp, Ne.symm hm]
    rw [hfun]
    cases hfind : df.cols.find? fun p => p.1 == m with
    | none => simp
    | some p1 =>
        have h1 : p1.1 = m := by simpa using List.find?_some hfind
        simp [h1, hm]
  · unfold DataFrame.get
    rw [show ((⟨df.cols ++ [(n, v)]⟩ : DataFrame)).cols = df.cols ++ [(n, v)] from rfl,
      List.find?_append]
    cases hfind : df.cols.find? fun p => p.1 == m with
    | none => simp [hfind, Ne.symm hm]
    | some p1 => simp [hfind]

theorem DataFrame.keys_setCol_of_not_hasCol (df : DataFrame) (n : String) (v : List Val)
    (h : df.hasCol n = false) : (df.setCol n v).keys = df.keys ++ [n] := by
  unfold DataFrame.setCol
  rw [if_neg (by simp [h])]
  unfold DataFrame.keys
  simp

theorem DataFrame.setCol_cols_of_not_hasCol (df : DataFrame) (n : String) (v : List Val)
    (h : df.hasCol n = false) : (df.setCol n v).cols = df.cols ++ [(n, v)] := by
  unfold DataFrame.setCol
  rw [if_neg (by simp [h])]

/-! ### Chunked execution: reassembly and elementwise chunk-safety -/

theorem chunkSplitAux_flatten {α : Type _} (csize : Nat) (hc : csize ≠ 0) :
    ∀ (fuel : Nat) (xs : List α), xs.length ≤ fuel →
      (chunkSplitAux csize fuel xs).flatten = xs := by
  intro fuel
  induction fuel with
  | zero =>
      intro xs hx
      have : xs = [] := List.length_eq_zero.mp (Nat.le_zero.mp hx)
      subst this
      rfl
  | succ fuel ih =>
      intro xs hx
      cases xs with
      | nil => rfl
      | cons x rest =>
          have hstep : chunkSplitAux csize (fuel + 1) (x :: rest)
              = (x :: rest).take csize :: chunkSplitAux csize fuel ((x :: rest).drop csize) := rfl
          rw [hstep, List.flatten_cons,
            ih ((x :: rest).drop csize) ?_, List.take_append_drop]
          rw [List.length_drop]
          calc (x :: rest).length - csize ≤ (x :: rest).length - 1 :=
                Nat.sub_le_sub_left (Nat.pos_of_ne_zero hc) _
            _ ≤ fuel := by simpa using hx

theorem chunkSplit_flatten {α : Type _} (csize : Nat) (hc : csize ≠ 0) (xs : List α) :
    (chunkSplit csize xs).flatten = xs :=
  chunkSplitAux_flatten csize hc xs.length xs le_rfl

theorem mapExcept_checked (bad : Val → Bool) (msg : String) (g : ℚ → ℚ) (L : List (List Val)) :
    mapExcept (fun c => if c.any bad then Except.error msg else Except.ok (mapNum g c)) L
      = if L.any (fun c => c.any bad) then Except.error msg
        else Except.ok (L.map (mapNum g)) := by
  induction L with
  | nil => rfl
  | cons c t ih =>
      rw [mapExcept, List.any_cons]
      cases hc : c.any bad
      · rw [if_neg (by simp [hc]), ih]
        cases ht : t.any fun c => c.any bad
        · rw [if_neg (by simp [ht]), if_neg (by simp [hc, ht])]
          rfl
        · rw [if_pos (by simp [ht]), if_pos (by simp [hc, ht])]
          rfl
      · rw [if_pos (by simp [hc]), if_pos (by simp [hc])]

theorem runChunked_checked (bad : Val → Bool) (msg : String) (g : ℚ → ℚ)
    (csize : Nat) (hc : csize ≠ 0) (xs : List Val) :
    runChunked csize (fun c => if c.any bad then .error msg else .ok (mapNum g c)) xs
      = if xs.any bad then .error msg else .ok (mapNum g xs) := by
  unfold runChunked
  split
  · rw [mapExcept_checked]
    have hflat := chunkSplit_flatten csize hc xs
    have hany : ((chunkSplit csize xs).any fun c => c.any bad) = xs.any bad := by
      conv_rhs => rw [← hflat]
      rw [List.any_flatten]
    rw [hany]
    cases hx : xs.any bad
    · rw [if_neg (by simp), if_neg (by simp)]
      show Except.ok (List.map (mapNum g) (chunkSplit csize xs)).flatten = _
      congr 1
      have hmap : mapNum g
          = List.map (fun v => match v with | Val.num q => Val.num (g q) | v => v) := rfl
      rw [hmap, ← List.map_flatten, hflat]
    · rw [if_pos rfl, if_pos rfl]
      rfl
  · rfl

instance {ε α : Type _} [DecidableEq ε] [DecidableEq α] : DecidableEq (Except ε α) := fun a b =>
  match a, b with
  | .error e, .error f =>
      if h : e = f then .isTrue (congrArg Except.error h)
      else .isFalse fun hc => h (Except.error.inj hc)
  | .ok x, .ok y =>
      if h : x = y then .isTrue (congrArg Except.ok h)
      else .isFalse fun hc => h (Except.ok.inj hc)
  | .error _, .ok _ => .isFalse fun hc => Except.noConfusion hc
  | .ok _, .error _ => .isFalse fun hc => Except.noConfusion hc

/-- A concrete instantiation of the abstract irrational primitives, used
for evaluating the model at concrete inputs whose claims do not depend on
the actual log / sqrt (the executed paths never call them). -/
def idFns : NumFns := ⟨id, id⟩

/-- C3 (amended, part proved): for every column and every positive chunk
size, chunked execution of `log` and of `sqrt` equals whole-column
execution — the check and the elementwise map both commute with the
chunk split. -/
theorem chunked_log_sqrt_eq_whole (fns : NumFns) (csize : Nat) (hc : 0 < csize)
    (xs : List Val) :
    runChunked csize (processChunk fns "log") xs = processChunk fns "log" xs ∧
    runChunked csize (processChunk fns "sqrt") xs = processChunk fns "sqrt" xs := by
  constructor
  · have h : processChunk fns "log"
        = fun c => if c.any (fun v => match v with | Val.num q => decide (q ≤ 0) | _ => false)
            then Except.error "Log transformation requires positive values"
            else Except.ok (mapNum fns.log c) := funext fun c => rfl
    rw [h]
    exact runChunked_checked _ _ _ csize (Nat.pos_iff_ne_zero.mp hc) xs
  · have h : processChunk fns "sqrt"
        = fun c => if c.any (fun v => match v with | Val.num q => decide (q < 0) | _ => false)
            then Except.error "Square root transformation requires non-negative values"
            else Except.ok (mapNum fns.sqrt c) := funext fun c => rfl
    rw [h]
    exact runChunked_checked _ _ _ csize (Nat.pos_iff_ne_zero.mp hc) xs

/-- Witness for `chunked_log_sqrt_eq_whole` at chunk size 2 on a
3-element column (so the chunked path is actually taken). -/
theorem chunked_log_sqrt_eq_whole_witness :
    0 < 2 ∧
      (runChunked 2 (processChunk idFns "log") [Val.num 1, Val.num 2, Val.num 3]
          = processChunk idFns "log" [Val.num 1, Val.num 2, Val.num 3] ∧
        runChunked 2 (processChunk idFns "sqrt") [Val.num 1, Val.num 2, Val.num 3]
          = processChunk idFns "sqrt" [Val.num 1, Val.num 2, Val.num 3]) :=
  ⟨by decide, chunked_log_sqrt_eq_whole idFns 2 (by decide) [Val.num 1, Val.num 2, Val.num 3]⟩

/-- C3 (counterexample): `label_encoding` is NOT chunk-safe as implemented:
the encoder is refit on every chunk, so on the numeric column [2, 2, 1, 1]
with chunk size 2 the chunked run yields codes [0, 0, 0, 0] while the
whole-column run yields [1, 1, 0, 0]. -/
theorem label_encoding_chunked_ne_whole :
    runChunked 2 (processChunk idFns "label_encoding")
        [Val.num 2, Val.num 2, Val.num 1, Val.num 1]
      ≠ processChunk idFns "label_encoding" [Val.num 2, Val.num 2, Val.num 1, Val.num 1] := by
  with_unfolding_all decide

/-- C2: the chunked path fits `MinMaxScaler` per chunk, so chunked
execution of `minmax` differs from whole-column execution: on [1, 2, 3, 5]
with chunk size 2 the chunked run yields [0, 1, 0, 1] while the
whole-column run yields [0, 1/4, 1/2, 1] — the engine does NOT compute
global statistics first. -/
theorem minmax_chunked_ne_whole :
    runChunked 2 (processChunk idFns "minmax") [Val.num 1, Val.num 2, Val.num 3, Val.num 5]
      ≠ processChunk idFns "minmax" [Val.num 1, Val.num 2, Val.num 3, Val.num 5] := by
  with_unfolding_all decide

/-- C1: the dropna path of `_apply_transformation` reassigns
`self.current_df`, and `preview_transformation` calls it directly, so a
preview of `dropna` on a column containing a null DOES mutate `current`:
on the frame with single column a = [1, null] the preview leaves
`current_df` equal to [a -> [1]], not to its prior state. -/
theorem preview_dropna_mutates_current :
    previewTransformation idFns
        ⟨⟨[("a", [Val.num 1, Val.null])]⟩, ⟨[("a", [Val.num 1, Val.null])]⟩⟩ "a" "dropna"
      = .ok (.single [Val.num 1],
          ⟨⟨[("a", [Val.num 1])]⟩, ⟨[("a", [Val.num 1, Val.null])]⟩⟩) ∧
    (⟨[("a", [Val.num 1])]⟩ : DataFrame) ≠ ⟨[("a", [Val.num 1, Val.null])]⟩ := by
  with_unfolding_all decide

/-- C6 (counterexample): `standard` on the zero-variance column
[3, 3, null] silently succeeds and returns substitute values 0 (sklearn
replaces the zero scale by 1); no DegenerateStatistic failure is
reported and no error of any kind is raised. -/
theorem standard_zero_variance_silent :
    processChunk idFns "standard" [Val.num 3, Val.num 3, Val.null]
      = .ok [Val.num 0, Val.num 0, Val.null] := by
  with_unfolding_all decide

theorem meanQ_of_constant (l : List ℚ) (a : ℚ) (ha : a ∈ l)
    (h : ∀ x ∈ l, x = a) : meanQ l = a := by
  unfold meanQ
  rw [List.sum_eq_card_nsmul l a h, nsmul_eq_mul]
  have hlen : (l.length : ℚ) ≠ 0 :=
    Nat.cast_ne_zero.mpr (Nat.pos_iff_ne_zero.mp (List.length_pos.mpr (List.ne_nil_of_mem ha)))
  exact mul_div_cancel_left₀ a hlen

/-- C6 (amended): for every numeric column whose non-null values are all
equal (zero variance / zero standard deviation), `standard` does not
fail: it succeeds returning 0 at every numeric position and leaving every
other position unchanged, whatever the model of the square root is. -/
theorem standard_zero_variance_returns_zeros (fns : NumFns) (xs : List Val)
    (h : ∀ q ∈ nonNullNums xs, ∀ r ∈ nonNullNums xs, q = r) :
    processChunk fns "standard" xs
      = .ok (xs.map fun v => match v with | .num _ => Val.num 0 | v => v) := by
  have hpc : processChunk fns "standard" xs
      = .ok (mapNum (fun q => (q - meanQ (nonNullNums xs)) / stdScale fns (nonNullNums xs)) xs) :=
    rfl
  rw [hpc]
  congr 1
  unfold mapNum
  apply List.map_congr_left
  intro v hv
  cases v with
  | num q =>
      have hq : q ∈ nonNullNums xs := List.mem_filterMap.mpr ⟨Val.num q, hv, rfl⟩
      have hmean : meanQ (nonNullNums xs) = q :=
        meanQ_of_constant _ q hq fun x hx => h x hx q hq
      simp only [hmean, sub_self, zero_div]
  | str s => rfl
  | null => rfl

/-- Witness for `standard_zero_variance_returns_zeros` on the concrete
column [3, 3, null]. -/
theorem standard_zero_variance_returns_zeros_witness :
    (∀ q ∈ nonNullNums [Val.num 3, Val.num 3, Val.null],
      ∀ r ∈ nonNullNums [Val.num 3, Val.num 3, Val.null], q = r) ∧
    processChunk idFns "standard" [Val.num 3, Val.num 3, Val.null]
      = .ok ([Val.num 3, Val.num 3, Val.null].map
          fun v => match v with | .num _ => Val.num 0 | v => v) :=
  ⟨by with_unfolding_all decide,
    standard_zero_variance_returns_zeros idFns [Val.num 3, Val.num 3, Val.null]
      (by with_unfolding_all decide)⟩

def Val.isStr : Val → Bool
  | .str _ => true
  | _ => false

/-- C8 (counterexample): `label_encoding` stringifies a null to "nan" and
encodes it as an ordinary category: on [b, null, a] the output is
[1, 2, 0] — the null position receives integer code 2 instead of
remaining null (and with the null present the codes range over 0..K
rather than 0..K-1 for the K = 2 distinct non-null values). -/
theorem label_encoding_null_becomes_code :
    processChunk idFns "label_encoding" [Val.str "b", Val.null, Val.str "a"]
      = .ok [Val.num 1, Val.num 2, Val.num 0] := by
  with_unfolding_all decide

theorem labelClasses_nodup (xs : List Val) : (labelClasses xs).Nodup :=
  ((List.perm_insertionSort _ _).nodup_iff).mpr (List.nodup_dedup _)

theorem mem_labelClasses (xs : List Val) (s : String) :
    s ∈ labelClasses xs ↔ s ∈ astypeStr xs := by
  unfold labelClasses
  rw [(List.perm_insertionSort _ _).mem_iff, List.mem_dedup]

/-- C8 (amended): on a null-free categorical (all-string) column,
`label_encoding` is the deterministic dense coding the claim describes:
every value receives the index of its stringified form in the
lexicographically sorted list of distinct values, codes lie in 0..K-1,
distinct values receive distinct codes and every code below K is used.
(Null positions, however, do NOT remain null — see the counterexample.) -/
theorem label_encoding_dense_codes (fns : NumFns) (xs : List Val)
    (h : ∀ v ∈ xs, v.isStr = true) :
    processChunk fns "label_encoding" xs
        = .ok (xs.map fun v => Val.num (((labelClasses xs).indexOf v.toStr : ℕ) : ℚ)) ∧
      List.Sorted (fun a b => a ≤ b) (labelClasses xs) ∧
      (∀ v ∈ xs, (labelClasses xs).indexOf v.toStr < (labelClasses xs).length) ∧
      (∀ v ∈ xs, ∀ w ∈ xs,
        (labelClasses xs).indexOf v.toStr = (labelClasses xs).indexOf w.toStr → v = w) ∧
      (∀ k, k < (labelClasses xs).length →
        ∃ v ∈ xs, (labelClasses xs).indexOf v.toStr = k) := by
  have hmem : ∀ v ∈ xs, v.toStr ∈ labelClasses xs := fun v hv =>
    (mem_labelClasses xs v.toStr).mpr (List.mem_map_of_mem Val.toStr hv)
  refine ⟨?_, ?_, ?_, ?_, ?_⟩
  · have hT : labelEncodeT xs
        = xs.map fun v => Val.num (((labelClasses xs).indexOf v.toStr : ℕ) : ℚ) := by
      unfold labelEncodeT
      show (xs.map Val.toStr).map _ = _
      rw [List.map_map]
      rfl
    show Except.ok (labelEncodeT xs) = _
    rw [hT]
  · exact List.sorted_insertionSort _ _
  · exact fun v hv => List.indexOf_lt_length.mpr (hmem v hv)
  · intro v hv w hw heq
    have hs := (List.indexOf_inj (hmem v hv) (hmem w hw)).mp heq
    cases v with
    | str s =>
        cases w with
        | str t => simpa [Val.toStr] using hs
        | num q => exact absurd (h (Val.num q) hw) (by simp [Val.isStr])
        | null => exact absurd (h Val.null hw) (by simp [Val.isStr])
    | num q => exact absurd (h (Val.num q) hv) (by simp [Val.isStr])
    | null => exact absurd (h Val.null hv) (by simp [Val.isStr])
  · intro k hk
    have hsmem : (labelClasses xs).get ⟨k, hk⟩ ∈ labelClasses xs := List.get_mem _ _ hk
    obtain ⟨v, hv, hvs⟩ := List.mem_map.mp ((mem_labelClasses xs _).mp hsmem)
    refine ⟨v, hv, ?_⟩
    rw [hvs]
    show (labelClasses xs).indexOf ((labelClasses xs).get ⟨k, hk⟩) = k
    simpa using List.get_indexOf (labelClasses_nodup xs) ⟨k, hk⟩

/-- Witness for `label_encoding_dense_codes` on the column [b, a]. -/
theorem label_encoding_dense_codes_witness :
    (∀ v ∈ [Val.str "b", Val.str "a"], v.isStr = true) ∧
      (processChunk idFns "label_encoding" [Val.str "b", Val.str "a"]
          = .ok ([Val.str "b", Val.str "a"].map
              fun v => Val.num (((labelClasses [Val.str "b", Val.str "a"]).indexOf v.toStr : ℕ) : ℚ)) ∧
        List.Sorted (fun a b => a ≤ b) (labelClasses [Val.str "b", Val.str "a"]) ∧
        (∀ v ∈ [Val.str "b", Val.str "a"],
          (labelClasses [Val.str "b", Val.str "a"]).indexOf v.toStr
            < (labelClasses [Val.str "b", Val.str "a"]).length) ∧
        (∀ v ∈ [Val.str "b", Val.str "a"], ∀ w ∈ [Val.str "b", Val.str "a"],
          (labelClasses [Val.str "b", Val.str "a"]).indexOf v.toStr
              = (labelClasses [Val.str "b", Val.str "a"]).indexOf w.toStr → v = w) ∧
        (∀ k, k < (labelClasses [Val.str "b", Val.str "a"]).length →
          ∃ v ∈ [Val.str "b", Val.str "a"],
            (labelClasses [Val.str "b", Val.str "a"]).indexOf v.toStr = k)) :=
  ⟨by decide, label_encoding_dense_codes idFns [Val.str "b", Val.str "a"] (by decide)⟩

/-! ### One-hot encoding -/

theorem valEq_eq {v w : Val} (h : valEq v w = true) : v = w := by
  cases v <;> cases w <;> simp [valEq] at h <;> simp [h]

theorem valEq_self (v : Val) (hv : v.isNull = false) : valEq v v = true := by
  cases v <;> simp [valEq, Val.isNull] at hv ⊢

theorem valEq_null_left (w : Val) : valEq Val.null w = false := by
  cases w <;> rfl

theorem mem_uniqueFirstAux [DecidableEq α] (seen : List α) (xs : List α) (a : α) :
    a ∈ uniqueFirstAux seen xs ↔ a ∈ xs ∧ a ∉ seen := by
  induction xs generalizing seen with
  | nil => simp [uniqueFirstAux]
  | cons x t ih =>
      unfold uniqueFirstAux
      by_cases hx : x ∈ seen
      · rw [if_pos hx, ih seen]
        constructor
        · rintro ⟨h1, h2⟩
          exact ⟨List.mem_cons_of_mem _ h1, h2⟩
        · rintro ⟨h1, h2⟩
          rcases List.mem_cons.mp h1 with h1 | h1
          · subst h1
            exact absurd hx h2
          · exact ⟨h1, h2⟩
      · rw [if_neg hx]
        constructor
        · intro h1
          rcases List.mem_cons.mp h1 with h1 | h1
          · subst h1
            exact ⟨List.mem_cons_self _ _, hx⟩
          · obtain ⟨ht, hs⟩ := (ih (x :: seen)).mp h1
            exact ⟨List.mem_cons_of_mem _ ht, fun hc => hs (List.mem_cons_of_mem _ hc)⟩
        · rintro ⟨h1, h2⟩
          rcases List.mem_cons.mp h1 with h1 | h1
          · subst h1
            exact List.mem_cons_self _ _
          · by_cases hax : a = x
            · subst hax
              exact List.mem_cons_self _ _
            · refine List.mem_cons_of_mem _ ((ih (x :: seen)).mpr ⟨h1, fun hc => ?_⟩)
              rcases List.mem_cons.mp hc with hc | hc
              · exact hax hc
              · exact h2 hc

theorem nodup_uniqueFirstAux [DecidableEq α] (seen xs : List α) :
    (uniqueFirstAux seen xs).Nodup := by
  induction xs generalizing seen with
  | nil => simp [uniqueFirstAux]
  | cons x t ih =>
      unfold uniqueFirstAux
      by_cases hx : x ∈ seen
      · rw [if_pos hx]
        exact ih seen
      · rw [if_neg hx]
        refine List.nodup_cons.mpr ⟨fun hc => ?_, ih (x :: seen)⟩
        exact ((mem_uniqueFirstAux _ _ _).mp hc).2 (List.mem_cons_self _ _)

theorem mem_uniqueFirst [DecidableEq α] (xs : List α) (a : α) :
    a ∈ uniqueFirst xs ↔ a ∈ xs := by
  unfold uniqueFirst
  rw [mem_uniqueFirstAux]
  simp

theorem nodup_uniqueFirst [DecidableEq α] (xs : List α) : (uniqueFirst xs).Nodup :=
  nodup_uniqueFirstAux [] xs

theorem mem_oneHotCategories (data : List Val) (v : Val) :
    v ∈ oneHotCategories data ↔ v ∈ data ∧ v.isNull = false := by
  unfold oneHotCategories
  rw [mem_uniqueFirst, List.mem_filter]
  simp

theorem nodup_oneHotCategories (data : List Val) : (oneHotCategories data).Nodup :=
  nodup_uniqueFirst _

theorem hasCol_eq_false_iff (df : DataFrame) (n : String) :
    df.hasCol n = false ↔ ∀ p ∈ df.cols, p.1 ≠ n := by
  rw [Bool.eq_false_iff]
  constructor
  · intro h p hp he
    exact h ((DataFrame.hasCol_iff df n).mpr ⟨p, hp, he⟩)
  · intro h hc
    obtain ⟨p, hp, he⟩ := (DataFrame.hasCol_iff df n).mp hc
    exact h p hp he

theorem foldl_setCol_fresh (ps : List (String × List Val)) :
    ∀ df : DataFrame, (ps.map Prod.fst).Nodup →
      (∀ p ∈ ps, df.hasCol p.1 = false) →
      (ps.foldl (fun d pr => d.setCol pr.1 pr.2) df).cols = df.cols ++ ps := by
  induction ps with
  | nil => intro df _ _; simp
  | cons p t ih =>
      intro df hnodup hfresh
      rw [List.foldl_cons]
      have hp : df.hasCol p.1 = false := hfresh p (List.mem_cons_self _ _)
      have hfresh2 : ∀ q ∈ t, (df.setCol p.1 p.2).hasCol q.1 = false := by
        intro q hq
        rw [hasCol_eq_false_iff]
        rw [DataFrame.setCol_cols_of_not_hasCol df p.1 p.2 hp]
        intro r hr
        rcases List.mem_append.mp hr with hr | hr
        · exact (hasCol_eq_false_iff df q.1).mp (hfresh q (List.mem_cons_of_mem _ hq)) r hr
        · rcases List.mem_singleton.mp hr with rfl
          intro he
          exact (List.nodup_cons.mp hnodup).1 (he ▸ List.mem_map_of_mem Prod.fst hq)
      rw [ih (df.setCol p.1 p.2) (List.nodup_cons.mp hnodup).2 hfresh2,
        DataFrame.setCol_cols_of_not_hasCol df p.1 p.2 hp]
      simp

theorem sum_indicator_nodup (cats : List Val) (v : Val) (hnodup : cats.Nodup)
    (hv : v ∈ cats) (hvn : v.isNull = false) :
    (cats.map fun c => if valEq v c then (1 : ℚ) else 0).sum = 1 := by
  induction cats with
  | nil => cases hv
  | cons c t ih =>
      rw [List.map_cons, List.sum_cons]
      rcases List.mem_cons.mp hv with h1 | h1
      · subst h1
        rw [if_pos (valEq_self v hvn)]
        have hz : ∀ x ∈ t.map fun c => if valEq v c then (1 : ℚ) else 0, x = 0 := by
          intro x hx
          obtain ⟨c2, hc2, rfl⟩ := List.mem_map.mp hx
          have hne2 : ¬ valEq v c2 = true := by
            intro he
            have hvc : v = c2 := valEq_eq he
            subst hvc
            exact (List.nodup_cons.mp hnodup).1 hc2
          rw [if_neg hne2]
        rw [List.sum_eq_zero hz, add_zero]
      · have hne : valEq v c = false := by
          cases he : valEq v c
          · rfl
          · exfalso
            have hvc : v = c := valEq_eq he
            subst hvc
            exact (List.nodup_cons.mp hnodup).1 h1
        rw [hne, if_neg (by simp), zero_add]
        exact ih (List.nodup_cons.mp hnodup).2 h1

/-- The sum, over a list of columns, of the numeric entries in row `i`. -/
def rowSumAt (cols : List (String × List Val)) (i : Nat) : ℚ :=
  (cols.map fun p => match p.2[i]? with | some (Val.num q) => q | _ => 0).sum

theorem oneHotName_inj (column : String) {c1 c2 : Val}
    (h1 : c1.isStr = true) (h2 : c2.isStr = true)
    (he : oneHotName column c1 = oneHotName column c2) : c1 = c2 := by
  cases c1 with
  | str s1 =>
      cases c2 with
      | str s2 =>
          simp only [oneHotName, Val.toStr] at he
          have hd := congrArg String.data he
          simp only [String.data_append] at hd
          have h3 : s1.data = s2.data := List.append_inj_right hd rfl
          exact congrArg Val.str (String.ext h3)
      | num q => simp [Val.isStr] at h2
      | null => simp [Val.isStr] at h2
  | num q => simp [Val.isStr] at h1
  | null => simp [Val.isStr] at h1

theorem oneHot_names_nodup (column : String) (data : List Val)
    (h : ∀ v ∈ data, (v.isNull || v.isStr) = true) :
    ((oneHotCategories data).map (oneHotName column)).Nodup := by
  refine List.Nodup.map_on ?_ (nodup_oneHotCategories data)
  intro c1 hc1 c2 hc2 he
  obtain ⟨hm1, hn1⟩ := (mem_oneHotCategories data c1).mp hc1
  obtain ⟨hm2, hn2⟩ := (mem_oneHotCategories data c2).mp hc2
  have hs1 : c1.isStr = true := by have := h c1 hm1; rwa [hn1, Bool.false_or] at this
  have hs2 : c2.isStr = true := by have := h c2 hm2; rwa [hn2, Bool.false_or] at this
  exact oneHotName_inj column hs1 hs2 he

theorem oneHotCols_eq (column : String) (data : List Val)
    (hnn : ((oneHotCategories data).map (oneHotName column)).Nodup) :
    oneHotCols column data
      = (oneHotCategories data).map fun c => (oneHotName column c, indicatorCol data c) := by
  unfold oneHotCols
  rw [← List.foldl_map (fun c => (oneHotName column c, indicatorCol data c))
    (fun (d : DataFrame) pr => d.setCol pr.1 pr.2)]
  rw [foldl_setCol_fresh _ ⟨[]⟩ ?_ ?_]
  · exact List.nil_append _
  · rw [List.map_map]
    exact hnn
  · intro p _
    rfl

/-- C4: for a categorical (string-or-null valued) column, one-hot encoding
produces exactly one column per distinct non-null value (K columns, K the
distinct non-null value count), named `column_value` with distinct names,
and in every row the indicator values across the K new columns sum to 1
when the original value is non-null and to 0 when it is null. -/
theorem one_hot_encode_correct (column : String) (data : List Val)
    (h : ∀ v ∈ data, (v.isNull || v.isStr) = true) :
    (oneHotCols column data).map Prod.fst = (oneHotCategories data).map (oneHotName column) ∧
    (oneHotCols column data).length = (oneHotCategories data).length ∧
    ((oneHotCols column data).map Prod.fst).Nodup ∧
    (∀ i v, data[i]? = some v →
      rowSumAt (oneHotCols column data) i = if v.isNull then 0 else 1) := by
  have hnn := oneHot_names_nodup column data h
  have hfold := oneHotCols_eq column data hnn
  refine ⟨?_, ?_, ?_, ?_⟩
  · rw [hfold, List.map_map]
    rfl
  · rw [hfold, List.length_map]
  · rw [hfold, List.map_map]
    exact hnn
  · intro i v hiv
    rw [hfold]
    unfold rowSumAt
    rw [List.map_map]
    have hcongr : ∀ c ∈ oneHotCategories data,
        ((fun p : String × List Val => match p.2[i]? with | some (Val.num q) => q | _ => 0) ∘
          fun c => (oneHotName column c, indicatorCol data c)) c
          = if valEq v c then (1 : ℚ) else 0 := by
      intro c _
      show (match (indicatorCol data c)[i]? with | some (Val.num q) => q | _ => 0) = _
      unfold indicatorCol
      rw [List.getElem?_map, hiv]
      rfl
    rw [List.map_congr_left hcongr]
    by_cases hv : v.isNull = true
    · rw [if_pos hv]
      apply List.sum_eq_zero
      intro x hx
      obtain ⟨c, _, rfl⟩ := List.mem_map.mp hx
      have hvnull : v = Val.null := by
        cases v <;> simp [Val.isNull] at hv ⊢
      rw [hvnull, valEq_null_left, if_neg (by simp)]
    · rw [if_neg hv]
      have hvn : v.isNull = false := Bool.eq_false_iff.mpr hv
      exact sum_indicator_nodup _ v (nodup_oneHotCategories data)
        ((mem_oneHotCategories data v).mpr ⟨List.getElem?_mem hiv, hvn⟩) hvn

/-- Witness for `one_hot_encode_correct` on the column
city = [A, B, A, null]. -/
theorem one_hot_encode_correct_witness :
    (∀ v ∈ [Val.str "A", Val.str "B", Val.str "A", Val.null], (v.isNull || v.isStr) = true) ∧
    ((oneHotCols "city" [Val.str "A", Val.str "B", Val.str "A", Val.null]).map Prod.fst
        = (oneHotCategories [Val.str "A", Val.str "B", Val.str "A", Val.null]).map
            (oneHotName "city") ∧
      (oneHotCols "city" [Val.str "A", Val.str "B", Val.str "A", Val.null]).length
        = (oneHotCategories [Val.str "A", Val.str "B", Val.str "A", Val.null]).length ∧
      ((oneHotCols "city" [Val.str "A", Val.str "B", Val.str "A", Val.null]).map Prod.fst).Nodup ∧
      (∀ i v, [Val.str "A", Val.str "B", Val.str "A", Val.null][i]? = some v →
        rowSumAt (oneHotCols "city" [Val.str "A", Val.str "B", Val.str "A", Val.null]) i
          = if v.isNull then 0 else 1)) :=
  ⟨by decide,
    one_hot_encode_correct "city" [Val.str "A", Val.str "B", Val.str "A", Val.null] (by decide)⟩

/-- An 11-distinct-value categorical column (exceeding the claimed
ceiling of 10). -/
def elevenVals : List Val :=
  [Val.str "a", Val.str "b", Val.str "c", Val.str "d", Val.str "e", Val.str "f",
   Val.str "g", Val.str "h", Val.str "i", Val.str "j", Val.str "k"]

/-- C7 (counterexample): one_hot_encoding performs no category-count
validation at all: on a column with 11 distinct values (more than the
claimed ceiling of 10) it succeeds, returning 11 new columns instead of
failing with TooManyCategories. -/
theorem one_hot_eleven_categories_succeeds :
    (oneHotCols "c" elevenVals).length = 11 ∧
    applyTransformationAux idFns ⟨[("c", elevenVals)]⟩ "c" "one_hot_encoding"
      = .ok (.multi (oneHotCols "c" elevenVals) (oneHotCreated "c" elevenVals),
          ⟨[("c", elevenVals)]⟩) := by
  constructor
  · with_unfolding_all decide
  · rfl

/-- C7 (amended): one_hot_encoding enforces no category ceiling: on every
categorical (string-or-null) column it succeeds whatever the distinct
value count K is (it never fails, in particular never with
TooManyCategories), it produces exactly K new columns, and
`_apply_transformation` returns `current_df` unchanged. -/
theorem one_hot_no_ceiling (fns : NumFns) (df : DataFrame) (column : String)
    (h : ∀ v ∈ df.get column, (v.isNull || v.isStr) = true) :
    applyTransformationAux fns df column "one_hot_encoding"
        = .ok (.multi (oneHotCols column (df.get column))
            (oneHotCreated column (df.get column)), df) ∧
      (oneHotCols column (df.get column)).length
        = (oneHotCategories (df.get column)).length := by
  refine ⟨rfl, ?_⟩
  rw [oneHotCols_eq column _ (oneHot_names_nodup column _ h), List.length_map]

/-- Witness for `one_hot_no_ceiling` on the 11-category frame. -/
theorem one_hot_no_ceiling_witness :
    (∀ v ∈ (DataFrame.get ⟨[("c", elevenVals)]⟩ "c"), (v.isNull || v.isStr) = true) ∧
    (applyTransformationAux idFns ⟨[("c", elevenVals)]⟩ "c" "one_hot_encoding"
        = .ok (.multi (oneHotCols "c" (DataFrame.get ⟨[("c", elevenVals)]⟩ "c"))
            (oneHotCreated "c" (DataFrame.get ⟨[("c", elevenVals)]⟩ "c")),
            ⟨[("c", elevenVals)]⟩) ∧
      (oneHotCols "c" (DataFrame.get ⟨[("c", elevenVals)]⟩ "c")).length
        = (oneHotCategories (DataFrame.get ⟨[("c", elevenVals)]⟩ "c")).length) :=
  ⟨by decide, one_hot_no_ceiling idFns ⟨[("c", elevenVals)]⟩ "c" (by decide)⟩

/-! ### dropna -/

/-- The number of null entries of a column (`data.isna().sum()`). -/
def countNulls (xs : List Val) : Nat := (xs.filter fun v => v.isNull).length

theorem filterRows_nil (mask : List Bool) : filterRows mask [] = [] := by
  cases mask <;> rfl

theorem get_dropnaOn (df : DataFrame) (c n : String) :
    (df.dropnaOn c).get n = filterRows (nullMask (df.get c)) (df.get n) := by
  have hg : df.get n = ((df.cols.find? fun p => p.1 == n).map Prod.snd).getD [] := rfl
  show ((((df.cols.map fun p => (p.1, filterRows (nullMask (df.get c)) p.2)).find?
      fun p => p.1 == n).map Prod.snd).getD [])
    = filterRows (nullMask (df.get c)) (df.get n)
  rw [List.find?_map]
  have hfun : ((fun p : String × List Val => p.1 == n)
      ∘ fun p : String × List Val => (p.1, filterRows (nullMask (df.get c)) p.2))
      = fun p : String × List Val => p.1 == n := rfl
  rw [hfun]
  cases hfind : df.cols.find? fun p => p.1 == n with
  | none =>
      rw [hg, hfind]
      exact (filterRows_nil _).symm
  | some p1 =>
      rw [hg, hfind]
      rfl

theorem filterRows_nullMask_self (xs : List Val) :
    filterRows (nullMask xs) xs = xs.filter fun v => !v.isNull := by
  induction xs with
  | nil => rfl
  | cons v t ih =>
      cases hv : v.isNull
      · have h1 : filterRows (nullMask (v :: t)) (v :: t) = v :: filterRows (nullMask t) t := by
          unfold filterRows nullMask
          simp [hv]
        rw [h1, ih, List.filter_cons, hv]
        simp
      · have h1 : filterRows (nullMask (v :: t)) (v :: t) = filterRows (nullMask t) t := by
          unfold filterRows nullMask
          simp [hv]
        rw [h1, ih, List.filter_cons, hv]
        simp

theorem length_filterRows (mask : List Bool) (vals : List Val) (h : vals.length = mask.length) :
    (filterRows mask vals).length = mask.count true := by
  induction vals generalizing mask with
  | nil =>
      cases mask with
      | nil => rfl
      | cons b ms => simp at h
  | cons v t ih =>
      cases mask with
      | nil => simp at h
      | cons b ms =>
          have hlen : t.length = ms.length := by simpa using h
          cases b
          · have h1 : filterRows (false :: ms) (v :: t) = filterRows ms t := by
              unfold filterRows
              simp
            rw [h1, ih ms hlen, List.count_cons]
            simp
          · have h1 : filterRows (true :: ms) (v :: t) = v :: filterRows ms t := by
              unfold filterRows
              simp
            rw [h1, List.length_cons, ih ms hlen, List.count_cons]
            simp

theorem count_true_nullMask (xs : List Val) :
    (nullMask xs).count true = (xs.filter fun v => !v.isNull).length := by
  induction xs with
  | nil => rfl
  | cons v t ih =>
      show ((!v.isNull) :: nullMask t).count true = ((v :: t).filter fun v => !v.isNull).length
      rw [List.count_cons, List.filter_cons, ih]
      cases hv : v.isNull <;> simp [hv]

theorem length_filter_nonnull (xs : List Val) :
    (xs.filter fun v => !v.isNull).length + countNulls xs = xs.length := by
  unfold countNulls
  induction xs with
  | nil => rfl
  | cons v t ih =>
      rw [List.filter_cons, List.filter_cons]
      cases hv : v.isNull <;> simp [hv] <;> omega

theorem countNulls_filter_nonnull (xs : List Val) :
    countNulls (xs.filter fun v => !v.isNull) = 0 := by
  unfold countNulls
  induction xs with
  | nil => rfl
  | cons v t ih =>
      rw [List.filter_cons]
      cases hv : v.isNull <;> simp [hv, List.filter_cons, ih]

theorem countNulls_le_length (xs : List Val) : countNulls xs ≤ xs.length := by
  have := length_filter_nonnull xs
  omega

/-- C9: committing `dropna(column)` (via `apply_transformation`) filters
every column of `current_df` to the rows where the target column is
non-null and then adds the cleaned column under the new name.  The
resulting row count of every column equals the prior row count minus the
target column's null count, and no null remains in the target column. -/
theorem dropna_commit_correct (fns : NumFns) (p : Processor) (column new_name : String)
    (hwf : ∀ pr ∈ p.current_df.cols, pr.2.length = (p.current_df.get column).length) :
    applyTransformation fns p column "dropna" new_name
        = .ok (⟨(p.current_df.dropnaOn column).setCol new_name
              ((p.current_df.dropnaOn column).get column), p.original_df⟩, [new_name]) ∧
      countNulls ((p.current_df.dropnaOn column).get column) = 0 ∧
      ((p.current_df.dropnaOn column).get column).length
        = (p.current_df.get column).length - countNulls (p.current_df.get column) ∧
      (∀ pr ∈ (p.current_df.dropnaOn column).cols,
        pr.2.length
          = (p.current_df.get column).length - countNulls (p.current_df.get column)) ∧
      (p.current_df.dropnaOn column).cols
        = p.current_df.cols.map fun pr =>
            (pr.1, filterRows (nullMask (p.current_df.get column)) pr.2) := by
  have hget : (p.current_df.dropnaOn column).get column
      = (p.current_df.get column).filter fun v => !v.isNull := by
    rw [get_dropnaOn, filterRows_nullMask_self]
  refine ⟨rfl, ?_, ?_, ?_, rfl⟩
  · rw [hget]
    exact countNulls_filter_nonnull _
  · rw [hget]
    have := length_filter_nonnull (p.current_df.get column)
    omega
  · intro pr hpr
    have hcols : (p.current_df.dropnaOn column).cols
        = p.current_df.cols.map fun pr =>
            (pr.1, filterRows (nullMask (p.current_df.get column)) pr.2) := rfl
    rw [hcols] at hpr
    obtain ⟨pr0, hpr0, rfl⟩ := List.mem_map.mp hpr
    show (filterRows (nullMask (p.current_df.get column)) pr0.2).length = _
    rw [length_filterRows _ _ (by
      rw [show (nullMask (p.current_df.get column)).length = (p.current_df.get column).length
        from List.length_map _ _]
      exact hwf pr0 hpr0)]
    rw [count_true_nullMask]
    have := length_filter_nonnull (p.current_df.get column)
    omega

/-- Witness for `dropna_commit_correct` on the frame with columns
a = [1, null, 3] and b = [x, y, z]. -/
theorem dropna_commit_correct_witness :
    (∀ pr ∈ (DataFrame.mk [("a", [Val.num 1, Val.null, Val.num 3]),
        ("b", [Val.str "x", Val.str "y", Val.str "z"])]).cols,
      pr.2.length = (DataFrame.get ⟨[("a", [Val.num 1, Val.null, Val.num 3]),
        ("b", [Val.str "x", Val.str "y", Val.str "z"])]⟩ "a").length) ∧
    (applyTransformation idFns
        ⟨⟨[("a", [Val.num 1, Val.null, Val.num 3]),
           ("b", [Val.str "x", Val.str "y", Val.str "z"])]⟩, ⟨[]⟩⟩ "a" "dropna" "a2"
        = .ok (⟨((DataFrame.mk [("a", [Val.num 1, Val.null, Val.num 3]),
              ("b", [Val.str "x", Val.str "y", Val.str "z"])]).dropnaOn "a").setCol "a2"
                (((DataFrame.mk [("a", [Val.num 1, Val.null, Val.num 3]),
                  ("b", [Val.str "x", Val.str "y", Val.str "z"])]).dropnaOn "a").get "a"),
              ⟨[]⟩⟩, ["a2"]) ∧
      countNulls (((DataFrame.mk [("a", [Val.num 1, Val.null, Val.num 3]),
          ("b", [Val.str "x", Val.str "y", Val.str "z"])]).dropnaOn "a").get "a") = 0 ∧
      (((DataFrame.mk [("a", [Val.num 1, Val.null, Val.num 3]),
          ("b", [Val.str "x", Val.str "y", Val.str "z"])]).dropnaOn "a").get "a").length
        = ((DataFrame.mk [("a", [Val.num 1, Val.null, Val.num 3]),
            ("b", [Val.str "x", Val.str "y", Val.str "z"])]).get "a").length
          - countNulls ((DataFrame.mk [("a", [Val.num 1, Val.null, Val.num 3]),
              ("b", [Val.str "x", Val.str "y", Val.str "z"])]).get "a") ∧
      (∀ pr ∈ ((DataFrame.mk [("a", [Val.num 1, Val.null, Val.num 3]),
          ("b", [Val.str "x", Val.str "y", Val.str "z"])]).dropnaOn "a").cols,
        pr.2.length
          = ((DataFrame.mk [("a", [Val.num 1, Val.null, Val.num 3]),
              ("b", [Val.str "x", Val.str "y", Val.str "z"])]).get "a").length
            - countNulls ((DataFrame.mk [("a", [Val.num 1, Val.null, Val.num 3]),
                ("b", [Val.str "x", Val.str "y", Val.str "z"])]).get "a")) ∧
      ((DataFrame.mk [("a", [Val.num 1, Val.null, Val.num 3]),
          ("b", [Val.str "x", Val.str "y", Val.str "z"])]).dropnaOn "a").cols
        = (DataFrame.mk [("a", [Val.num 1, Val.null, Val.num 3]),
            ("b", [Val.str "x", Val.str "y", Val.str "z"])]).cols.map fun pr =>
              (pr.1, filterRows (nullMask ((DataFrame.mk
                [("a", [Val.num 1, Val.null, Val.num 3]),
                 ("b", [Val.str "x", Val.str "y", Val.str "z"])]).get "a")) pr.2)) :=
  ⟨by decide,
    dropna_commit_correct idFns
      ⟨⟨[("a", [Val.num 1, Val.null, Val.num 3]),
         ("b", [Val.str "x", Val.str "y", Val.str "z"])]⟩, ⟨[]⟩⟩ "a" "a2" (by decide)⟩

theorem keys_dropnaOn (df : DataFrame) (c : String) : (df.dropnaOn c).keys = df.keys := by
  show (df.cols.map fun p => (p.1, filterRows (nullMask (df.get c)) p.2)).map Prod.fst
      = df.cols.map Prod.fst
  rw [List.map_map]
  rfl

theorem aux_single_shape (fns : NumFns) (df : DataFrame) (column t : String)
    (ht : t ≠ "one_hot_encoding") (r : TransformResult × DataFrame)
    (hok : applyTransformationAux fns df column t = .ok r) :
    ∃ vals, r.1 = .single vals ∧ r.2 = (if t = "dropna" then df.dropnaOn column else df) := by
  by_cases h1 : t = "dropna"
  · subst h1
    have he : applyTransformationAux fns df column "dropna"
        = .ok (.single ((df.dropnaOn column).get column), df.dropnaOn column) := rfl
    rw [he] at hok
    have hr := Except.ok.inj hok
    exact ⟨_, by rw [← hr], by rw [← hr, if_pos rfl]⟩
  · by_cases h2 : t = "fillna_mean"
    · subst h2
      have he : applyTransformationAux fns df column "fillna_mean"
          = .ok (.single (fillnaWith (seriesMean (df.get column)) (df.get column)), df) := rfl
      rw [he] at hok
      have hr := Except.ok.inj hok
      exact ⟨_, by rw [← hr], by rw [← hr, if_neg h1]⟩
    · by_cases h3 : t = "fillna_median"
      · subst h3
        have he : applyTransformationAux fns df column "fillna_median"
            = .ok (.single (fillnaWith (seriesMedian (df.get column)) (df.get column)), df) := rfl
        rw [he] at hok
        have hr := Except.ok.inj hok
        exact ⟨_, by rw [← hr], by rw [← hr, if_neg h1]⟩
      · have he : applyTransformationAux fns df column t
            = wrapErr t ((runChunked CHUNK_SIZE (processChunk fns t) (df.get column)).map
                fun vals => (.single vals, df)) := by
          simp only [applyTransformationAux]
          rw [if_neg h1, if_neg h2, if_neg h3, if_neg ht]
        rw [he] at hok
        cases hr : runChunked CHUNK_SIZE (processChunk fns t) (df.get column) with
        | error e =>
            rw [hr] at hok
            simp [wrapErr, Except.map] at hok
        | ok vals =>
            rw [hr] at hok
            have hval : (TransformResult.single vals, df) = r := by
              simpa [wrapErr, Except.map] using hok
            exact ⟨vals, by rw [← hval], by rw [← hval, if_neg h1]⟩

/-- C10: for every transformation other than one-hot (log, sqrt, standard,
minmax, label_encoding, fillna_mean, fillna_median and dropna) and every
`new_column_name` not already present, a successful
`apply_transformation` reports exactly the one created column
`new_column_name`, the key list of `current_df` becomes the old key list
with `new_column_name` appended (no pre-existing column is overwritten,
removed or reordered), and for the non-row-filtering transformations the
pre-existing columns are byte-for-byte unchanged. -/
theorem apply_adds_exactly_one_column (fns : NumFns) (p : Processor)
    (column t new_name : String) (p2 : Processor) (created : List String)
    (ht : t = "log" ∨ t = "sqrt" ∨ t = "standard" ∨ t = "minmax" ∨ t = "label_encoding"
      ∨ t = "fillna_mean" ∨ t = "fillna_median" ∨ t = "dropna")
    (hfresh : p.current_df.hasCol new_name = false)
    (hok : applyTransformation fns p column t new_name = .ok (p2, created)) :
    created = [new_name] ∧
    p2.current_df.keys = p.current_df.keys ++ [new_name] ∧
    (t ≠ "dropna" → ∃ vals, p2.current_df.cols = p.current_df.cols ++ [(new_name, vals)]) := by
  have htne : t ≠ "one_hot_encoding" := by
    rcases ht with rfl | rfl | rfl | rfl | rfl | rfl | rfl | rfl <;> decide
  unfold applyTransformation at hok
  cases haux : applyTransformationAux fns p.current_df column t with
  | error e =>
      rw [haux] at hok
      simp [Except.map] at hok
  | ok r =>
      rw [haux] at hok
      obtain ⟨vals, hr1, hr2⟩ := aux_single_shape fns p.current_df column t htne r haux
      have hok2 : (match r.1 with
          | TransformResult.multi frame _ =>
              (({ p with current_df := frame.foldl (fun d pr => d.setCol pr.1 pr.2) r.2 } :
                Processor), frame.map Prod.fst)
          | TransformResult.single vals =>
              ({ p with current_df := r.2.setCol new_name vals }, [new_name]))
          = (p2, created) := by
        simpa [Except.map] using hok
      rw [hr1] at hok2
      have hp2 : ({ p with current_df := r.2.setCol new_name vals } : Processor) = p2 :=
        congrArg Prod.fst hok2
      have hcr : [new_name] = created := congrArg Prod.snd hok2
      have hfr2 : r.2.hasCol new_name = false := by
        rw [hr2]
        by_cases htd : t = "dropna"
        · rw [if_pos htd]
          show (p.current_df.dropnaOn column).keys.contains new_name = false
          rw [keys_dropnaOn]
          exact hfresh
        · rw [if_neg htd]
          exact hfresh
      refine ⟨hcr.symm, ?_, ?_⟩
      · rw [← hp2]
        show (r.2.setCol new_name vals).keys = _
        rw [DataFrame.keys_setCol_of_not_hasCol _ _ _ hfr2]
        by_cases htd : t = "dropna"
        · rw [hr2, if_pos htd, keys_dropnaOn]
        · rw [hr2, if_neg htd]
      · intro htd
        refine ⟨vals, ?_⟩
        rw [← hp2]
        show (r.2.setCol new_name vals).cols = _
        rw [hr2, if_neg htd, DataFrame.setCol_cols_of_not_hasCol _ _ _ hfresh]

/-- Witness for `apply_adds_exactly_one_column`: fillna_mean on
a = [1, null] with fresh name b (the mean 1 fills the null). -/
theorem apply_adds_exactly_one_column_witness :
    (("fillna_mean" : String) = "log" ∨ ("fillna_mean" : String) = "sqrt"
      ∨ ("fillna_mean" : String) = "standard" ∨ ("fillna_mean" : String) = "minmax"
      ∨ ("fillna_mean" : String) = "label_encoding" ∨ ("fillna_mean" : String) = "fillna_mean"
      ∨ ("fillna_mean" : String) = "fillna_median" ∨ ("fillna_mean" : String) = "dropna") ∧
    (DataFrame.hasCol ⟨[("a", [Val.num 1, Val.null])]⟩ "b" = false) ∧
    (applyTransformation idFns ⟨⟨[("a", [Val.num 1, Val.null])]⟩, ⟨[]⟩⟩ "a" "fillna_mean" "b"
      = .ok (⟨⟨[("a", [Val.num 1, Val.null]), ("b", [Val.num 1, Val.num 1])]⟩, ⟨[]⟩⟩, ["b"])) ∧
    (["b"] = ["b"] ∧
      (DataFrame.mk [("a", [Val.num 1, Val.null]), ("b", [Val.num 1, Val.num 1])]).keys
        = (DataFrame.mk [("a", [Val.num 1, Val.null])]).keys ++ ["b"] ∧
      (("fillna_mean" : String) ≠ "dropna" →
        ∃ vals, (DataFrame.mk [("a", [Val.num 1, Val.null]),
            ("b", [Val.num 1, Val.num 1])]).cols
          = (DataFrame.mk [("a", [Val.num 1, Val.null])]).cols ++ [("b", vals)])) :=
  ⟨by decide, by decide, by with_unfolding_all decide,
    apply_adds_exactly_one_column idFns ⟨⟨[("a", [Val.num 1, Val.null])]⟩, ⟨[]⟩⟩
      "a" "fillna_mean" "b"
      ⟨⟨[("a", [Val.num 1, Val.null]), ("b", [Val.num 1, Val.num 1])]⟩, ⟨[]⟩⟩ ["b"]
      (by decide) (by decide) (by with_unfolding_all decide)⟩

/-! ### Session provenance and revert -/

theorem keys_setCol_of_hasCol (df : DataFrame) (n : String) (v : List Val)
    (h : df.hasCol n = true) : (df.setCol n v).keys = df.keys := by
  unfold DataFrame.setCol
  rw [if_pos (by simp [h])]
  show (df.cols.map fun p => if p.1 = n then (n, v) else p).map Prod.fst = df.cols.map Prod.fst
  rw [List.map_map]
  apply List.map_congr_left
  intro p _
  by_cases hp : p.1 = n
  · simp [hp]
  · simp [hp]

theorem find?_filter_of_imp (l : List α) (p q : α → Bool) (h : ∀ x, p x = true → q x = true) :
    (l.filter q).find? p = l.find? p := by
  induction l with
  | nil => rfl
  | cons a t ih =>
      rw [List.filter_cons]
      cases hq : q a
      · have hp : p a = false := by
          cases hpa : p a
          · rfl
          · exact absurd (h a hpa) (by simp [hq])
        rw [if_neg (by simp), ih]
        exact (List.find?_cons_of_neg _ (by simp [hp])).symm
      · rw [if_pos rfl]
        cases hpa : p a
        · rw [List.find?_cons_of_neg _ (by simp [hpa]), ih]
          exact (List.find?_cons_of_neg _ (by simp [hpa])).symm
        · rw [List.find?_cons_of_pos _ hpa]
          exact (List.find?_cons_of_pos _ hpa).symm

/-- A provenance entry as the spec defines it (§3 Session State):
the transformed column, the transformation, and the names of the columns
the commit created. -/
structure ProvEntry where
  column : String
  transformation : String
  created_column_names : List String
deriving DecidableEq

/-- The Transformation Session state of the spec: the engine state
(`current_df` and `original_df` of `DataProcessor`) together with the
spec's provenance list. -/
structure Session where
  current_df : DataFrame
  original_df : DataFrame
  provenance : List ProvEntry
deriving DecidableEq

/-- The column names recorded as created by the commits against `column`. -/
def createdFor (s : Session) (column : String) : List String :=
  (s.provenance.filter fun e => e.column == column).flatMap fun e => e.created_column_names

/-- Modelled from the spec: `revert(column)` is described in §4.5/§6 but
has no implementation in the source (the `DataProcessor` keeps
`original_df` as the revert target, and `apply_transformation` returns
the created column names, but no revert endpoint exists).  Per the spec
it "restores `current[column]` from `original[column]`, removing any
derived columns previously committed for that column (via provenance
lookup)". -/
def Session.revert (s : Session) (column : String) : Session :=
  let created := createdFor s column
  let pruned : DataFrame := ⟨s.current_df.cols.filter fun p => !created.contains p.1⟩
  { s with current_df := pruned.setCol column (s.original_df.get column) }

/-- C5 (spec-modelled): after commits on `column`, revert restores
`current[column]` to exactly `original[column]`, removes every column the
provenance records as created for `column`, and leaves every unrelated
column untouched.  (`hfresh` rules out the degenerate case of a commit
that recorded the reverted column itself as created, which the engine
cannot produce since commits write fresh names.) -/
theorem revert_restores_column (s : Session) (column : String)
    (hfresh : column ∉ createdFor s column) :
    (s.revert column).current_df.get column = s.original_df.get column ∧
    (∀ n ∈ createdFor s column, (s.revert column).current_df.hasCol n = false) ∧
    (∀ n, n ≠ column → n ∉ createdFor s column →
      (s.revert column).current_df.get n = s.current_df.get n) := by
  refine ⟨?_, ?_, ?_⟩
  · exact DataFrame.get_setCol_self _ column _
  · intro n hn
    have hnc : n ≠ column := fun he => hfresh (he ▸ hn)
    rw [hasCol_eq_false_iff]
    intro p hp
    show p.1 ≠ n
    have hcols := DataFrame.setCol_cols_of_not_hasCol
    -- case on whether the pruned frame still has `column`
    by_cases hhas : (DataFrame.mk (s.current_df.cols.filter
        fun p => !(createdFor s column).contains p.1)).hasCol column
    · have : (s.revert column).current_df.cols
          = (s.current_df.cols.filter fun p => !(createdFor s column).contains p.1).map
              fun p => if p.1 = column then (column, s.original_df.get column) else p := by
        show (DataFrame.setCol _ column _).cols = _
        unfold DataFrame.setCol
        rw [if_pos hhas]
      rw [this] at hp
      obtain ⟨p0, hp0, rfl⟩ := List.mem_map.mp hp
      have hkeep := (List.mem_filter.mp hp0).2
      by_cases hpc : p0.1 = column
      · rw [if_pos hpc]
        exact fun he => hnc he.symm
      · rw [if_neg hpc]
        intro he
        rw [he] at hkeep
        simp at hkeep
        exact hkeep hn
    · have : (s.revert column).current_df.cols
          = (s.current_df.cols.filter fun p => !(createdFor s column).contains p.1)
              ++ [(column, s.original_df.get column)] := by
        show (DataFrame.setCol _ column _).cols = _
        unfold DataFrame.setCol
        rw [if_neg hhas]
      rw [this] at hp
      rcases List.mem_append.mp hp with hp | hp
      · have hkeep := (List.mem_filter.mp hp).2
        intro he
        rw [he] at hkeep
        simp at hkeep
        exact hkeep hn
      · rcases List.mem_singleton.mp hp with rfl
        exact fun he => hnc he.symm
  · intro n hnc hncr
    have h1 : (s.revert column).current_df.get n
        = (DataFrame.mk (s.current_df.cols.filter
            fun p => !(createdFor s column).contains p.1)).get n :=
      DataFrame.get_setCol_ne _ column n _ hnc
    rw [h1]
    show (((s.current_df.cols.filter fun p => !(createdFor s column).contains p.1).find?
        fun p => p.1 == n).map Prod.snd).getD [] = s.current_df.get n
    rw [find?_filter_of_imp _ _ _ ?_]
    · rfl
    · intro x hx
      have hxn : x.1 = n := by simpa using hx
      rw [hxn]
      have hcf : (createdFor s column).contains n = false := by
        cases hc : (createdFor s column).contains n
        · rfl
        · exact absurd (by simpa using hc) hncr
      rw [hcf]
      rfl

/-- A concrete session: log was committed on `age`, creating `age_log`. -/
def sessC5 : Session :=
  ⟨⟨[("age", [Val.num 5]), ("age_log", [Val.num 2]), ("city", [Val.str "A"])]⟩,
   ⟨[("age", [Val.num 1]), ("city", [Val.str "A"])]⟩,
   [⟨"age", "log", ["age_log"]⟩]⟩

/-- Witness for `revert_restores_column` on `sessC5`. -/
theorem revert_restores_column_witness :
    ("age" ∉ createdFor sessC5 "age") ∧
    ((sessC5.revert "age").current_df.get "age" = sessC5.original_df.get "age" ∧
      (∀ n ∈ createdFor sessC5 "age", (sessC5.revert "age").current_df.hasCol n = false) ∧
      (∀ n, n ≠ "age" → n ∉ createdFor sessC5 "age" →
        (sessC5.revert "age").current_df.get n = sessC5.current_df.get n)) :=
  ⟨by decide, revert_restores_column sessC5 "age" (by decide)⟩
